import Mathlib

/-!
Verification development for the pomo-tui focus-timer application.

The Rust sources under `src/` are shallowly embedded below:
* durations and instants are modelled as natural numbers of seconds
  (`std::time::Duration.saturating_sub` becomes truncated `Nat` subtraction,
  `Instant::elapsed` becomes `now - start`);
* calendar dates (`chrono::NaiveDate`) are modelled as integers counting
  days, so `(d2 - d1).num_days()` becomes `d2 - d1 : Int`;
* the mutable `App` struct (src/app.rs) becomes a record, and each `&mut self`
  method becomes a function `App → App`; the ambient clock calls
  (`Instant::now()`, `Utc::now()`) become explicit `now`/`date` parameters;
* file I/O (`save`/`load`), terminal rendering, notifications, and the purely
  cosmetic fields (breathing animation, celebration banner, hint fading,
  `needs_save`) are outside the embedded state: they never feed back into the
  timer, task, session or streak logic that the theorems below are about.
-/

namespace PomoTui

/-- `TimerMode` from src/app.rs: Pomodoro with auto-cycling, or a flat
timer carrying its duration in seconds. -/
inductive TimerMode where
  | pomodoro
  | timer (secs : Nat)
deriving DecidableEq, Repr

/-- `TimerState` from src/app.rs: the current phase of the Pomodoro cycle. -/
inductive TimerState where
  | work
  | shortBreak
  | longBreak
deriving DecidableEq, Repr

/-- `TimerState::session_type` from src/app.rs. -/
def TimerState.session_type : TimerState → String
  | .work => "work"
  | .shortBreak => "short_break"
  | .longBreak => "long_break"

/-- `InputMode` from src/app.rs (the variants that gate the key handlers). -/
inductive InputMode where
  | normal
  | addingTask
  | quickCapture
  | sessionNote
  | confirmReset
deriving DecidableEq, Repr

/-- The engine-relevant fields of `Config` from src/persistence/config.rs. -/
structure Config where
  work_duration_mins : Nat
  short_break_mins : Nat
  long_break_mins : Nat
  sessions_before_long_break : Nat
  auto_start_breaks : Bool
  focus_mode_on_start : Bool
deriving DecidableEq, Repr

/-- `Config::default` from src/persistence/config.rs. -/
def Config.default : Config where
  work_duration_mins := 25
  short_break_mins := 5
  long_break_mins := 15
  sessions_before_long_break := 4
  auto_start_breaks := false
  focus_mode_on_start := false

/-- `Task` from src/app.rs (the id and tag list do not participate in any
property below and are dropped from the embedding). -/
structure Task where
  name : String
  completed : Bool
  pomodoros_spent : Nat
deriving DecidableEq, Repr

/-- `Session` from src/persistence/sessions.rs; `timestamp` is split into the
day number that the streak logic consumes (`date`).  `id` is a fresh UUID in
the source and carries no logic. -/
structure Session where
  date : Int
  session_type : String
  duration_secs : Nat
  task_name : Option String
  note : Option String
deriving DecidableEq, Repr

/-- `SessionHistory` from src/persistence/sessions.rs. -/
structure SessionHistory where
  sessions : List Session
  current_streak : Nat
  longest_streak : Nat
  last_session_date : Option Int
deriving DecidableEq, Repr

/-- `SessionHistory::default`. -/
def SessionHistory.default : SessionHistory where
  sessions := []
  current_streak := 0
  longest_streak := 0
  last_session_date := none

/-- `SessionHistory::update_streak` from src/persistence/sessions.rs
(lines 107-135).  `days_diff = (session_date - last_date).num_days()`. -/
def SessionHistory.update_streak (h : SessionHistory) (session_date : Int) :
    SessionHistory :=
  match h.last_session_date with
  | some last_date =>
      let days_diff : Int := session_date - last_date
      if days_diff = 0 then
        { h with last_session_date := some session_date }
      else if days_diff = 1 then
        let cs := h.current_streak + 1
        { h with
            current_streak := cs
            longest_streak := if cs > h.longest_streak then cs else h.longest_streak
            last_session_date := some session_date }
      else
        { h with current_streak := 1, last_session_date := some session_date }
  | none =>
      { h with
          current_streak := 1
          longest_streak := 1
          last_session_date := some session_date }

/-- `SessionHistory::add` from src/persistence/sessions.rs (lines 95-104):
update the streak for work sessions, then push. -/
def SessionHistory.add (h : SessionHistory) (s : Session) : SessionHistory :=
  let h1 := if s.session_type = "work" then h.update_streak s.date else h
  { h1 with sessions := h1.sessions ++ [s] }

/-- The four-branch behaviour of `update_streak` exactly as the specification
states it: no prior date gives both streaks 1; the same date changes neither
streak; the successor date increments `current_streak` and takes the max into
`longest_streak`; any other date resets `current_streak` to 1; and
`last_session_date` ends equal to the given date in every branch. -/
def updateStreakSpec (h : SessionHistory) (d : Int) : SessionHistory :=
  match h.last_session_date with
  | none =>
      { h with current_streak := 1, longest_streak := 1, last_session_date := some d }
  | some last =>
      if d = last then
        { h with last_session_date := some d }
      else if d = last + 1 then
        { h with
            current_streak := h.current_streak + 1
            longest_streak := max h.longest_streak (h.current_streak + 1)
            last_session_date := some d }
      else
        { h with current_streak := 1, last_session_date := some d }

/-- The application state from src/app.rs, restricted to the fields the
timer, task, session and streak logic reads or writes.  Instants are seconds
(`start_instant : Option Nat`); `pending_session` mirrors the
`(type, duration, task_name)` triple of the source. -/
structure App where
  timer_mode : TimerMode
  timer_state : TimerState
  remaining_time : Nat
  is_paused : Bool
  start_instant : Option Nat
  start_remaining : Nat
  session_count : Nat
  sessions_before_long : Nat
  tasks : List Task
  selected_task_index : Nat
  input_mode : InputMode
  input_buffer : String
  focus_mode : Bool
  config : Config
  session_history : SessionHistory
  pending_session : Option (String × Nat × Option String)
deriving DecidableEq, Repr

/-- `App::new` from src/app.rs with the default configuration and an empty
session history, parameterised by the loaded task list. -/
def App.init (tasks : List Task) : App where
  timer_mode := .pomodoro
  timer_state := .work
  remaining_time := Config.default.work_duration_mins * 60
  is_paused := true
  start_instant := none
  start_remaining := Config.default.work_duration_mins * 60
  session_count := 0
  sessions_before_long := Config.default.sessions_before_long_break
  tasks := tasks
  selected_task_index := 0
  input_mode := .normal
  input_buffer := ""
  focus_mode := false
  config := Config.default
  session_history := SessionHistory.default
  pending_session := none

/-- `App::duration_for_state` from src/app.rs (lines 317-323), in seconds. -/
def App.duration_for_state (a : App) : TimerState → Nat
  | .work => a.config.work_duration_mins * 60
  | .shortBreak => a.config.short_break_mins * 60
  | .longBreak => a.config.long_break_mins * 60

/-- `App::get_current_duration` from src/app.rs (lines 848-853). -/
def App.get_current_duration (a : App) : Nat :=
  match a.timer_mode with
  | .pomodoro => a.duration_for_state a.timer_state
  | .timer secs => secs

/-- `App::update_remaining_time` from src/app.rs (lines 855-860):
`remaining = start_remaining.saturating_sub(start.elapsed())`. -/
def App.update_remaining_time (now : Nat) (a : App) : App :=
  match a.start_instant with
  | some start => { a with remaining_time := a.start_remaining - (now - start) }
  | none => a

/-- `App::toggle_pause` from src/app.rs (lines 800-815). -/
def App.toggle_pause (now : Nat) (a : App) : App :=
  if a.is_paused then
    { a with
        start_instant := some now
        start_remaining := a.remaining_time
        is_paused := false
        focus_mode := if a.config.focus_mode_on_start then true else a.focus_mode }
  else
    let a1 := a.update_remaining_time now
    { a1 with start_instant := none, is_paused := true }

/-- `App::reset_timer` from src/app.rs (lines 817-822). -/
def App.reset_timer (a : App) : App :=
  let d := a.get_current_duration
  { a with
      remaining_time := d
      start_remaining := d
      start_instant := none
      is_paused := true }

/-- `App::toggle_mode` from src/app.rs (lines 830-846). -/
def App.toggle_mode (a : App) : App :=
  let a1 :=
    match a.timer_mode with
    | .pomodoro =>
        { a with
            timer_mode := TimerMode.timer (a.config.work_duration_mins * 60)
            remaining_time := a.config.work_duration_mins * 60 }
    | .timer _ =>
        { a with
            timer_mode := TimerMode.pomodoro
            timer_state := TimerState.work
            remaining_time := a.duration_for_state .work
            session_count := 0 }
  { a1 with
      start_remaining := a1.remaining_time
      start_instant := none
      is_paused := true }

/-- `self.tasks[i].pomodoros_spent += 1` on a list (`Vec` indexing in the
source; out of range is a panic there and cannot occur on reachable states,
see the in-bounds invariant below). -/
def incSpent : List Task → Nat → List Task
  | [], _ => []
  | t :: ts, 0 => { t with pomodoros_spent := t.pomodoros_spent + 1 } :: ts
  | t :: ts, i + 1 => t :: incSpent ts i

/-- `App::advance_pomodoro_state` from src/app.rs (lines 862-891), with
`Instant::now()` of the auto-resume branch supplied as `now`. -/
def App.advance_pomodoro_state (now : Nat) (a : App) : App :=
  let a1 :=
    if a.timer_state = .work ∧ a.tasks ≠ [] then
      { a with tasks := incSpent a.tasks a.selected_task_index }
    else a
  let a2 :=
    match a1.timer_state with
    | .work =>
        let c := a1.session_count + 1
        if c ≥ a1.sessions_before_long then
          { a1 with timer_state := TimerState.longBreak, session_count := 0 }
        else
          { a1 with timer_state := TimerState.shortBreak, session_count := c }
    | .shortBreak => { a1 with timer_state := TimerState.work }
    | .longBreak => { a1 with timer_state := TimerState.work }
  let d := a2.duration_for_state a2.timer_state
  let a3 :=
    { a2 with
        remaining_time := d
        start_remaining := d
        start_instant := none
        is_paused := !a2.config.auto_start_breaks || decide (a2.timer_state = .work) }
  if a3.is_paused then a3 else { a3 with start_instant := some now }

/-- `App::skip_to_next` from src/app.rs (lines 824-828). -/
def App.skip_to_next (now : Nat) (a : App) : App :=
  if a.timer_mode = .pomodoro then a.advance_pomodoro_state now else a

/-- `App::on_timer_complete` from src/app.rs (lines 930-973); `date` is the
wall-clock day of the ambient `Utc::now()` used by the history update. -/
def App.on_timer_complete (now : Nat) (date : Int) (a : App) : App :=
  let task_name : Option String :=
    if a.tasks ≠ [] then (a.tasks.get? a.selected_task_index).map Task.name
    else none
  let a1 :=
    if a.timer_state = .work then
      let aw :=
        if a.tasks ≠ [] then
          { a with tasks := incSpent a.tasks a.selected_task_index }
        else a
      { aw with
          pending_session :=
            some (a.timer_state.session_type, aw.get_current_duration, task_name)
          input_mode := InputMode.sessionNote
          input_buffer := "" }
    else
      { a with
          session_history :=
            a.session_history.add
              ⟨date, a.timer_state.session_type, a.get_current_duration, task_name, none⟩ }
  match a1.timer_mode with
  | .pomodoro => a1.advance_pomodoro_state now
  | .timer _ => { a1 with is_paused := true }

/-- The countdown part of `App::tick` from src/app.rs (lines 893-928); the
cosmetic branches (breathing, celebration, hint fading) and the deferred task
save touch no embedded field. -/
def App.tick (now : Nat) (date : Int) (a : App) : App :=
  if a.is_paused then a
  else
    let a1 := a.update_remaining_time now
    if a1.remaining_time = 0 then a1.on_timer_complete now date else a1

/-- `App::complete_pending_session` from src/app.rs (lines 1017-1023);
`date` is the day of the `Utc::now()` timestamp given to the session. -/
def App.complete_pending_session (date : Int) (note : Option String) (a : App) :
    App :=
  match a.pending_session with
  | some (st, dur, tn) =>
      { a with
          pending_session := none
          session_history := a.session_history.add ⟨date, st, dur, tn, note⟩ }
  | none => a

/-- `App::handle_session_note_key` from src/app.rs, `Enter` arm
(lines 555-566): save the note and force a pause. -/
def App.note_enter (date : Int) (a : App) : App :=
  let note := if a.input_buffer.trim = "" then none else some a.input_buffer
  let a1 := a.complete_pending_session date note
  { a1 with
      input_mode := InputMode.normal
      input_buffer := ""
      is_paused := true }

/-- `App::handle_session_note_key` from src/app.rs, `Space` arm
(lines 568-604): with an empty buffer, save without a note and toggle into the
next interval; otherwise append a space (capped at 60 characters). -/
def App.note_space (now : Nat) (date : Int) (a : App) : App :=
  if a.input_buffer = "" then
    let a1 := a.complete_pending_session date none
    let a2 := { a1 with input_mode := InputMode.normal, input_buffer := "" }
    a2.toggle_pause now
  else if a.input_buffer.length < 60 then
    { a with input_buffer := a.input_buffer.push ' ' }
  else a

/-- `App::handle_session_note_key` from src/app.rs, `Esc` arm
(lines 605-611): save without a note and force a pause. -/
def App.note_esc (date : Int) (a : App) : App :=
  let a1 := a.complete_pending_session date none
  { a1 with
      input_mode := InputMode.normal
      input_buffer := ""
      is_paused := true }

/-- `App::handle_normal_key` from src/app.rs, `k`/`Up` arm (lines 404-412):
move the task selection up with wrap-around. -/
def App.move_up (a : App) : App :=
  if a.tasks = [] then a
  else if a.selected_task_index > 0 then
    { a with selected_task_index := a.selected_task_index - 1 }
  else { a with selected_task_index := a.tasks.length - 1 }

/-- `App::handle_normal_key` from src/app.rs, `j`/`Down` arm (lines 414-422):
move the task selection down with wrap-around. -/
def App.move_down (a : App) : App :=
  if a.tasks = [] then a
  else if a.selected_task_index < a.tasks.length - 1 then
    { a with selected_task_index := a.selected_task_index + 1 }
  else { a with selected_task_index := 0 }

/-- `App::handle_input_key` from src/app.rs, `Enter` arm (lines 478-496),
restricted to the task-list effect: push the parsed task and select it.  The
tag-store side effect has no bearing on the properties below. -/
def App.add_task (name : String) (_tags : List String) (a : App) : App :=
  if a.input_buffer ≠ "" ∧ name.trim ≠ "" then
    { a with
        tasks := a.tasks ++ [⟨name, false, 0⟩]
        selected_task_index := a.tasks.length
        input_mode := InputMode.normal
        input_buffer := "" }
  else
    { a with input_mode := InputMode.normal, input_buffer := "" }

/-- `App::handle_normal_key` from src/app.rs, `d` arm (lines 431-442):
delete the selected task and clamp the selection index. -/
def App.delete_task (a : App) : App :=
  if a.tasks = [] then a
  else
    let ts := a.tasks.eraseIdx a.selected_task_index
    let i :=
      if ts = [] then 0
      else if a.selected_task_index ≥ ts.length then ts.length - 1
      else a.selected_task_index
    { a with tasks := ts, selected_task_index := i }

/-- `App::handle_normal_key` from src/app.rs, `c` arm (lines 444-456):
drop completed tasks and clamp the selection index. -/
def App.clear_completed (a : App) : App :=
  let ts := a.tasks.filter (fun t => !t.completed)
  let i :=
    if ts = [] then 0
    else if a.selected_task_index ≥ ts.length then ts.length - 1
    else a.selected_task_index
  { a with tasks := ts, selected_task_index := i }

/-- `App::handle_normal_key` from src/app.rs, `Enter` arm (lines 458-464):
toggle the selected task's completed flag. -/
def App.toggle_completed (a : App) : App :=
  if a.tasks = [] then a
  else
    match a.tasks.get? a.selected_task_index with
    | some t =>
        { a with
            tasks := a.tasks.set a.selected_task_index { t with completed := !t.completed } }
    | none => a

/-- `(x + delta).clamp(lo, hi)` on `i64` from `App::adjust_setting`. -/
def clampI (x lo hi : Int) : Int := max lo (min x hi)

/-- `App::adjust_setting` for `SessionsBeforeLong` from src/app.rs
(lines 715-719): clamp into `1..=10` and refresh the cached copy. -/
def App.adjust_sbl (delta : Int) (a : App) : App :=
  let v := (clampI ((a.config.sessions_before_long_break : Int) + delta) 1 10).toNat
  { a with
      config := { a.config with sessions_before_long_break := v }
      sessions_before_long := v }

/-- `App::adjust_setting` for `WorkDuration` from src/app.rs (lines 703-706). -/
def App.adjust_work (delta : Int) (a : App) : App :=
  let v := (clampI ((a.config.work_duration_mins : Int) + delta) 1 120).toNat
  { a with config := { a.config with work_duration_mins := v } }

/-- `App::adjust_setting` for `ShortBreak` from src/app.rs (lines 707-710). -/
def App.adjust_short (delta : Int) (a : App) : App :=
  let v := (clampI ((a.config.short_break_mins : Int) + delta) 1 60).toNat
  { a with config := { a.config with short_break_mins := v } }

/-- `App::adjust_setting` for `LongBreak` from src/app.rs (lines 711-714). -/
def App.adjust_long (delta : Int) (a : App) : App :=
  let v := (clampI ((a.config.long_break_mins : Int) + delta) 1 60).toNat
  { a with config := { a.config with long_break_mins := v } }

/-- `App::adjust_setting` for `AutoStartBreaks` from src/app.rs
(lines 734-736). -/
def App.toggle_auto_start (a : App) : App :=
  { a with config := { a.config with auto_start_breaks := !a.config.auto_start_breaks } }

/-- `App::adjust_setting` for `FocusModeOnStart` from src/app.rs
(lines 737-739). -/
def App.toggle_focus_start (a : App) : App :=
  { a with config := { a.config with focus_mode_on_start := !a.config.focus_mode_on_start } }

/-- `App::reset_all_data` from src/app.rs (lines 780-798).  Note that the
source forces `is_paused = true` without clearing `start_instant`. -/
def App.reset_all_data (a : App) : App :=
  { a with
      session_history := SessionHistory.default
      tasks := []
      selected_task_index := 0
      session_count := 0
      remaining_time := a.duration_for_state .work
      is_paused := true }

/-- One user-or-clock step of the application: every operation of src/app.rs
that touches the embedded state.  Instant and date arguments stand for the
ambient clock reads of the source. -/
inductive Op where
  | togglePause (now : Nat)
  | resetTimer
  | toggleMode
  | skip (now : Nat)
  | tick (now : Nat) (date : Int)
  | noteEnter (date : Int)
  | noteSpace (now : Nat) (date : Int)
  | noteEsc (date : Int)
  | moveUp
  | moveDown
  | addTask (name : String) (tags : List String)
  | deleteTask
  | clearCompleted
  | toggleCompleted
  | adjustSBL (delta : Int)
  | adjustWork (delta : Int)
  | adjustShort (delta : Int)
  | adjustLong (delta : Int)
  | toggleAutoStart
  | toggleFocusStart
  | resetAllData
deriving DecidableEq, Repr

/-- Dispatch one operation (the key-routing of `App::handle_key` reduced to
the state change it performs). -/
def App.step (a : App) : Op → App
  | .togglePause now => a.toggle_pause now
  | .resetTimer => a.reset_timer
  | .toggleMode => a.toggle_mode
  | .skip now => a.skip_to_next now
  | .tick now date => a.tick now date
  | .noteEnter date => a.note_enter date
  | .noteSpace now date => a.note_space now date
  | .noteEsc date => a.note_esc date
  | .moveUp => a.move_up
  | .moveDown => a.move_down
  | .addTask name tags => a.add_task name tags
  | .deleteTask => a.delete_task
  | .clearCompleted => a.clear_completed
  | .toggleCompleted => a.toggle_completed
  | .adjustSBL d => a.adjust_sbl d
  | .adjustWork d => a.adjust_work d
  | .adjustShort d => a.adjust_short d
  | .adjustLong d => a.adjust_long d
  | .toggleAutoStart => a.toggle_auto_start
  | .toggleFocusStart => a.toggle_focus_start
  | .resetAllData => a.reset_all_data

/-- Run a sequence of operations. -/
def App.run (a : App) : List Op → App
  | [] => a
  | op :: ops => (a.step op).run ops

/-- `TagInfo` from src/persistence/tags.rs (`last_used` only drives the
30-day load-time cleanup, not the suggestion logic). -/
structure TagInfo where
  name : String
  last_used : Int
  count : Nat
deriving DecidableEq, Repr

/-- `TagStore` from src/persistence/tags.rs. -/
structure TagStore where
  tags : List TagInfo
deriving DecidableEq, Repr

/-- Case folding of a string to a character list (`str::to_lowercase`,
which the source applies to both the query and every tag name). -/
def lowerChars (s : String) : List Char := s.toList.map Char.toLower

/-- Substring containment on character lists (`str::contains`). -/
def containsSub (pat : List Char) : List Char → Bool
  | [] => pat.isPrefixOf []
  | c :: t => pat.isPrefixOf (c :: t) || containsSub pat t

/-- `TagStore::suggest` from src/persistence/tags.rs (lines 90-112): empty
query gives none; otherwise the first case-insensitive prefix match in the
current order, then the first case-insensitive substring match, then none. -/
def TagStore.suggest (ts : TagStore) (pat : String) : Option String :=
  if pat = "" then none
  else
    let pl := lowerChars pat
    match ts.tags.find? (fun t => pl.isPrefixOf (lowerChars t.name)) with
    | some t => some t.name
    | none =>
        match ts.tags.find? (fun t => containsSub pl (lowerChars t.name)) with
        | some t => some t.name
        | none => none

/-- `suggest` exactly as the specification words it, phrased independently
with `filter`/`head?`: the first tag (in the stored, count-sorted order)
whose lowered name has the lowered query as a prefix, otherwise the first
whose lowered name contains it, otherwise none; the empty query suggests
nothing. -/
def suggestSpec (ts : TagStore) (pat : String) : Option String :=
  if pat = "" then none
  else
    let pl := lowerChars pat
    match (ts.tags.filter (fun t => pl.isPrefixOf (lowerChars t.name))).head? with
    | some t => some t.name
    | none =>
        ((ts.tags.filter (fun t => containsSub pl (lowerChars t.name))).head?).map
          TagInfo.name

/-- One resume/pause cycle per list entry: resume (`toggle_pause` while
paused) at instant `t`, pause (`toggle_pause` while running) at instant
`t + e`, so `e` is the elapsed duration measured from the anchor captured at
the resume. -/
def App.runCycles (a : App) : List (Nat × Nat) → App
  | [] => a
  | (t, e) :: rest => ((a.toggle_pause t).toggle_pause (t + e)).runCycles rest

/- ======================  theorems  ====================== -/

theorem toggle_pause_cycle (a : App) (h : a.is_paused = true) (t e : Nat) :
    (a.toggle_pause t).toggle_pause (t + e)
      = { a with
            remaining_time := a.remaining_time - e
            start_remaining := a.remaining_time
            start_instant := none
            is_paused := true
            focus_mode := if a.config.focus_mode_on_start then true else a.focus_mode } := by
  simp [App.toggle_pause, h, App.update_remaining_time, Nat.add_sub_cancel_left]

/-- **C1** Drift-free pause/resume: starting from any paused engine state,
after any finite sequence of resume/pause pairs with injected elapsed
durations `e₁, …, eₙ` (each measured from the anchor captured at its resume),
the remaining time equals the initial remaining time minus `Σ eᵢ`, floored at
zero (truncated `Nat` subtraction), independently of how the cycles were
interleaved; the engine ends paused. -/
theorem C1_drift_free_pause_resume (a : App) (cycles : List (Nat × Nat))
    (h : a.is_paused = true) :
    (a.runCycles cycles).remaining_time
        = a.remaining_time - (cycles.map Prod.snd).sum ∧
    (a.runCycles cycles).is_paused = true := by
  induction cycles generalizing a with
  | nil => exact ⟨by simp [App.runCycles], by simpa [App.runCycles] using h⟩
  | cons te rest ih =>
      obtain ⟨t, e⟩ := te
      have hstep := toggle_pause_cycle a h t e
      have hrec := ih ((a.toggle_pause t).toggle_pause (t + e)) (by rw [hstep])
      constructor
      · rw [App.runCycles, hrec.1, hstep]
        simp [Nat.sub_sub]
      · rw [App.runCycles, hrec.2]

theorem C1_drift_free_pause_resume_witness :
    ((App.init []).runCycles [(0, 100), (500, 200)]).remaining_time
        = (App.init []).remaining_time - ([(0, 100), (500, 200)].map Prod.snd).sum ∧
    ((App.init []).runCycles [(0, 100), (500, 200)]).is_paused = true :=
  C1_drift_free_pause_resume (App.init []) [(0, 100), (500, 200)] (by decide)

/-- **C2** Pomodoro advance follows the transition table: from Work, if
`session_count + 1 < sessions_before_long` the state becomes ShortBreak and
the count is incremented, otherwise the state becomes LongBreak and the count
resets to 0; from either break the state becomes Work with the count
unchanged.  With the default `sessions_before_long = 4` and `session_count
= 0`, four Work completions produce the break sequence ShortBreak,
ShortBreak, ShortBreak, LongBreak and the count returns to 0. -/
theorem C2_pomodoro_transition_table :
    (∀ (a : App) (now : Nat),
      ((a.advance_pomodoro_state now).timer_state =
        match a.timer_state with
        | .work =>
            if a.session_count + 1 < a.sessions_before_long
            then TimerState.shortBreak else TimerState.longBreak
        | .shortBreak => TimerState.work
        | .longBreak => TimerState.work) ∧
      ((a.advance_pomodoro_state now).session_count =
        match a.timer_state with
        | .work =>
            if a.session_count + 1 < a.sessions_before_long
            then a.session_count + 1 else 0
        | .shortBreak => a.session_count
        | .longBreak => a.session_count)) ∧
    ((App.init []).run [.skip 0]).timer_state = TimerState.shortBreak ∧
    ((App.init []).run (List.replicate 3 (Op.skip 0))).timer_state
        = TimerState.shortBreak ∧
    ((App.init []).run (List.replicate 5 (Op.skip 0))).timer_state
        = TimerState.shortBreak ∧
    ((App.init []).run (List.replicate 7 (Op.skip 0))).timer_state
        = TimerState.longBreak ∧
    ((App.init []).run (List.replicate 7 (Op.skip 0))).session_count = 0 := by
  refine ⟨fun a now => ?_, by decide, by decide, by decide, by decide, by decide⟩
  obtain ⟨mode, state, rem, paused, anchor, srem, cnt, sbl, tasks, idx, im, ib,
    fm, cfg, hist, pend⟩ := a
  cases state <;> refine ⟨?_, ?_⟩ <;>
    (simp only [App.advance_pomodoro_state]
     split_ifs <;> (try simp_all) <;> omega)

/-- **C3** What the code actually does on skip: from the initial Pomodoro
state with one task, `skip_to_next` records no session (that half of the
claim matches the code) but `advance_pomodoro_state` (src/app.rs lines
863-866) increments the selected task's `pomodoros_spent` from 0 to 1,
contradicting the claim (and §9 of the spec) that skip leaves every task
counter unchanged. -/
theorem C3_skip_increments_task_counter :
    ((App.init [⟨"t", false, 0⟩]).skip_to_next 0).session_history.sessions = [] ∧
    ((App.init [⟨"t", false, 0⟩]).skip_to_next 0).tasks = [⟨"t", false, 1⟩] := by
  decide

/-- **C4** What the code actually does on a natural Work completion: with one
task and the timer started at instant 0, the tick at instant 1500 (the full
default work duration) completes the Work interval, and the selected task's
`pomodoros_spent` rises from 0 to 2 — once in `on_timer_complete`
(src/app.rs lines 940-943) and once more in `advance_pomodoro_state`
(lines 863-866) — not by exactly one as the claim states. -/
theorem C4_work_completion_double_increment :
    ((App.init [⟨"t", false, 0⟩]).run
        [Op.togglePause 0, Op.tick 1500 0]).tasks = [⟨"t", false, 2⟩] ∧
    ((App.init [⟨"t", false, 0⟩]).run
        [Op.togglePause 0, Op.tick 1500 0]).pending_session
      = some ("work", 1500, some "t") := by
  decide

/-- **C5** Counterexample: the reachable state obtained by switching to flat
Timer mode, starting the timer at instant 0 and ticking at instant 1500 is
paused yet still carries the start anchor (`on_timer_complete`, src/app.rs
line 971, sets `is_paused = true` without clearing `start_instant`), so the
claimed invariant `is_paused == (start_anchor is None)` fails on a reachable
state. -/
theorem C5_counterexample_paused_with_anchor :
    ((App.init []).run [Op.toggleMode, Op.togglePause 0, Op.tick 1500 0]).is_paused
        = true ∧
    ((App.init []).run [Op.toggleMode, Op.togglePause 0, Op.tick 1500 0]).start_instant
        = some 0 := by
  decide

/-- **C9** Counterexample: after two completed Work intervals (session_count
= 2) the settings adjustment lowering `sessions_before_long` from 4 to 2
(src/app.rs lines 715-719 clamp into `1..=10` but never against the live
`session_count`) yields a reachable state with `session_count = 2` and
`sessions_before_long = 2`, violating the claimed range invariant
`session_count < sessions_before_long`. -/
theorem C9_counterexample_adjust_below_count :
    ((App.init []).run
        [Op.skip 0, Op.skip 0, Op.skip 0, Op.adjustSBL (-1), Op.adjustSBL (-1)]).session_count
      = 2 ∧
    ((App.init []).run
        [Op.skip 0, Op.skip 0, Op.skip 0, Op.adjustSBL (-1), Op.adjustSBL (-1)]).sessions_before_long
      = 2 := by
  decide

/-- **C6** `update_streak` behaves per the four-branch specification: with no
prior date both streaks become 1; an equal date changes neither streak; the
successor date increments `current_streak` and folds it into
`longest_streak` via max; any other date (gap > 1 day or a past date) resets
`current_streak` to 1; and `last_session_date` ends equal to the given date
in every branch. -/
theorem C6_update_streak_four_branches (h : SessionHistory) (d : Int) :
    h.update_streak d = updateStreakSpec h d := by
  obtain ⟨ss, cs, ls, last⟩ := h
  cases last with
  | none => rfl
  | some last =>
      simp only [SessionHistory.update_streak, updateStreakSpec]
      split_ifs <;>
        first
          | rfl
          | (exfalso; omega)
          | (simp only [SessionHistory.mk.injEq, Nat.max_def]
             split_ifs <;> simp_all <;> omega)

theorem find?_eq_head?_filter {α : Type} (p : α → Bool) (l : List α) :
    l.find? p = (l.filter p).head? := by
  induction l with
  | nil => rfl
  | cons x xs ih =>
      by_cases hx : p x = true
      · rw [List.find?_cons_of_pos _ hx, List.filter_cons_of_pos hx, List.head?_cons]
      · rw [List.find?_cons_of_neg _ hx, List.filter_cons_of_neg hx, ih]

/-- **C8** `suggest` returns none for the empty query; otherwise the first
tag in the current (count-sorted) order whose name matches the query as a
case-insensitive prefix, else the first containing it case-insensitively as
a substring, else none — never more than one suggestion (the return type is
a single `Option`).  On the store `{urgent: 5, shopping: 2}`:
`suggest "ur" = urgent`, `suggest "sho" = shopping`, `suggest "xyz" = none`. -/
theorem C8_suggest_best_match :
    (∀ (ts : TagStore) (pat : String), ts.suggest pat = suggestSpec ts pat) ∧
    TagStore.suggest ⟨[⟨"urgent", 0, 5⟩, ⟨"shopping", 0, 2⟩]⟩ "" = none ∧
    TagStore.suggest ⟨[⟨"urgent", 0, 5⟩, ⟨"shopping", 0, 2⟩]⟩ "ur" = some "urgent" ∧
    TagStore.suggest ⟨[⟨"urgent", 0, 5⟩, ⟨"shopping", 0, 2⟩]⟩ "sho" = some "shopping" ∧
    TagStore.suggest ⟨[⟨"urgent", 0, 5⟩, ⟨"shopping", 0, 2⟩]⟩ "xyz" = none := by
  refine ⟨fun ts pat => ?_, by decide, by decide, by decide, by decide⟩
  unfold TagStore.suggest suggestSpec
  split_ifs with h
  · rfl
  · simp only [find?_eq_head?_filter]
    cases hp : (ts.tags.filter
        (fun t => (lowerChars pat).isPrefixOf (lowerChars t.name))).head? with
    | some t => simp [hp]
    | none =>
        cases hq : (ts.tags.filter
            (fun t => containsSub (lowerChars pat) (lowerChars t.name))).head? <;>
          simp [hp, hq]

theorem run_preserves (P : App → Prop)
    (hstep : ∀ (a : App) (op : Op), P a → P (a.step op)) (ops : List Op) :
    ∀ a, P a → P (a.run ops) := by
  induction ops with
  | nil => exact fun a h => h
  | cons op ops ih => exact fun a h => ih _ (hstep a op h)

theorem run_preserves_of_forall (P : App → Prop) (G : Op → Prop)
    (hstep : ∀ (a : App) (op : Op), G op → P a → P (a.step op)) (ops : List Op) :
    (∀ op ∈ ops, G op) → ∀ a, P a → P (a.run ops) := by
  induction ops with
  | nil => exact fun _ a h => h
  | cons op ops ih =>
      exact fun hg a h =>
        ih (fun o ho => hg o (List.mem_cons_of_mem _ ho)) _
          (hstep a op (hg op (List.mem_cons_self _ _)) h)

theorem incSpent_length (ts : List Task) (i : Nat) :
    (incSpent ts i).length = ts.length := by
  induction ts generalizing i with
  | nil => rfl
  | cons t ts ih => cases i <;> simp [incSpent, ih]

theorem update_tasks (a : App) (now : Nat) :
    (a.update_remaining_time now).tasks = a.tasks := by
  unfold App.update_remaining_time; split <;> rfl

theorem update_index (a : App) (now : Nat) :
    (a.update_remaining_time now).selected_task_index = a.selected_task_index := by
  unfold App.update_remaining_time; split <;> rfl

theorem toggle_pause_tasks (a : App) (now : Nat) :
    (a.toggle_pause now).tasks = a.tasks := by
  unfold App.toggle_pause; split_ifs <;> simp [update_tasks]

theorem toggle_pause_index (a : App) (now : Nat) :
    (a.toggle_pause now).selected_task_index = a.selected_task_index := by
  unfold App.toggle_pause; split_ifs <;> simp [update_index]

theorem advance_tasks_length (a : App) (now : Nat) :
    (a.advance_pomodoro_state now).tasks.length = a.tasks.length := by
  obtain ⟨mode, state, rem, paused, anchor, srem, cnt, sbl, tasks, idx, im, ib,
    fm, cfg, hist, pend⟩ := a
  cases state <;>
    (simp only [App.advance_pomodoro_state]
     split_ifs <;> simp [incSpent_length])

theorem advance_index (a : App) (now : Nat) :
    (a.advance_pomodoro_state now).selected_task_index = a.selected_task_index := by
  obtain ⟨mode, state, rem, paused, anchor, srem, cnt, sbl, tasks, idx, im, ib,
    fm, cfg, hist, pend⟩ := a
  cases state <;>
    (simp only [App.advance_pomodoro_state]
     split_ifs <;> simp_all)

theorem otc_tasks_length (a : App) (now : Nat) (date : Int) :
    (a.on_timer_complete now date).tasks.length = a.tasks.length := by
  obtain ⟨mode, state, rem, paused, anchor, srem, cnt, sbl, tasks, idx, im, ib,
    fm, cfg, hist, pend⟩ := a
  cases mode <;> cases state <;>
    (simp only [App.on_timer_complete]
     split_ifs <;> simp [advance_tasks_length, incSpent_length])

theorem otc_index (a : App) (now : Nat) (date : Int) :
    (a.on_timer_complete now date).selected_task_index = a.selected_task_index := by
  obtain ⟨mode, state, rem, paused, anchor, srem, cnt, sbl, tasks, idx, im, ib,
    fm, cfg, hist, pend⟩ := a
  cases mode <;> cases state <;>
    (simp only [App.on_timer_complete]
     split_ifs <;> simp [advance_index])

theorem tick_tasks_length (a : App) (now : Nat) (date : Int) :
    (a.tick now date).tasks.length = a.tasks.length := by
  simp only [App.tick]
  split_ifs <;> simp [otc_tasks_length, update_tasks]

theorem tick_index (a : App) (now : Nat) (date : Int) :
    (a.tick now date).selected_task_index = a.selected_task_index := by
  simp only [App.tick]
  split_ifs <;> simp [otc_index, update_index]

theorem cp_tasks (a : App) (date : Int) (note : Option String) :
    (a.complete_pending_session date note).tasks = a.tasks := by
  unfold App.complete_pending_session; split <;> rfl

theorem cp_index (a : App) (date : Int) (note : Option String) :
    (a.complete_pending_session date note).selected_task_index
      = a.selected_task_index := by
  unfold App.complete_pending_session; split <;> rfl

theorem step_index_bound (a : App) (op : Op)
    (h : a.tasks.length = 0 ∨ a.selected_task_index < a.tasks.length) :
    (a.step op).tasks.length = 0 ∨
      (a.step op).selected_task_index < (a.step op).tasks.length := by
  cases op with
  | togglePause now =>
      simpa only [App.step, toggle_pause_tasks, toggle_pause_index] using h
  | resetTimer => simpa only [App.step, App.reset_timer] using h
  | toggleMode =>
      obtain ⟨mode, state, rem, paused, anchor, srem, cnt, sbl, tasks, idx, im,
        ib, fm, cfg, hist, pend⟩ := a
      cases mode <;> simpa only [App.step, App.toggle_mode] using h
  | skip now =>
      obtain ⟨mode, state, rem, paused, anchor, srem, cnt, sbl, tasks, idx, im,
        ib, fm, cfg, hist, pend⟩ := a
      cases mode with
      | pomodoro =>
          simpa only [App.step, App.skip_to_next, reduceIte, advance_tasks_length,
            advance_index] using h
      | timer secs => simpa only [App.step, App.skip_to_next] using h
  | tick now date =>
      simpa only [App.step, tick_tasks_length, tick_index] using h
  | noteEnter date =>
      simpa only [App.step, App.note_enter, cp_tasks, cp_index] using h
  | noteSpace now date =>
      simp only [App.step, App.note_space]
      split_ifs <;>
        simpa only [toggle_pause_tasks, toggle_pause_index, cp_tasks, cp_index] using h
  | noteEsc date =>
      simpa only [App.step, App.note_esc, cp_tasks, cp_index] using h
  | moveUp =>
      simp only [App.step, App.move_up]
      split_ifs with h1 h2
      · exact h
      · have hlen : a.tasks.length ≠ 0 := fun hz => h1 (List.length_eq_zero.mp hz)
        refine Or.inr ?_
        show a.selected_task_index - 1 < a.tasks.length
        rcases h with h | h <;> omega
      · have hlen : a.tasks.length ≠ 0 := fun hz => h1 (List.length_eq_zero.mp hz)
        refine Or.inr ?_
        show a.tasks.length - 1 < a.tasks.length
        omega
  | moveDown =>
      simp only [App.step, App.move_down]
      split_ifs with h1 h2
      · exact h
      · have hlen : a.tasks.length ≠ 0 := fun hz => h1 (List.length_eq_zero.mp hz)
        refine Or.inr ?_
        show a.selected_task_index + 1 < a.tasks.length
        omega
      · have hlen : a.tasks.length ≠ 0 := fun hz => h1 (List.length_eq_zero.mp hz)
        refine Or.inr ?_
        show (0 : Nat) < a.tasks.length
        omega
  | addTask name tags =>
      simp only [App.step, App.add_task]
      split_ifs
      · refine Or.inr ?_
        show a.tasks.length < (a.tasks ++ [Task.mk name false 0]).length
        simp
      · exact h
  | deleteTask =>
      simp only [App.step, App.delete_task]
      split_ifs with h1 h2 h3
      · exact h
      · exact Or.inl (by rw [h2]; rfl)
      · have hlen : (a.tasks.eraseIdx a.selected_task_index).length ≠ 0 :=
          fun hz => h2 (List.length_eq_zero.mp hz)
        refine Or.inr ?_
        show (a.tasks.eraseIdx a.selected_task_index).length - 1
            < (a.tasks.eraseIdx a.selected_task_index).length
        omega
      · refine Or.inr ?_
        show a.selected_task_index < (a.tasks.eraseIdx a.selected_task_index).length
        omega
  | clearCompleted =>
      simp only [App.step, App.clear_completed]
      split_ifs with h1 h2
      · exact Or.inl (by rw [h1]; rfl)
      · have hlen : (a.tasks.filter (fun t => !t.completed)).length ≠ 0 :=
          fun hz => h1 (List.length_eq_zero.mp hz)
        refine Or.inr ?_
        show (a.tasks.filter (fun t => !t.completed)).length - 1
            < (a.tasks.filter (fun t => !t.completed)).length
        omega
      · refine Or.inr ?_
        show a.selected_task_index < (a.tasks.filter (fun t => !t.completed)).length
        omega
  | toggleCompleted =>
      simp only [App.step, App.toggle_completed]
      split_ifs with h1
      · exact h
      · split
        · rcases h with h | h
          · exact Or.inl (by simpa using h)
          · exact Or.inr (by simpa using h)
        · exact h
  | adjustSBL d => simpa only [App.step, App.adjust_sbl] using h
  | adjustWork d => simpa only [App.step, App.adjust_work] using h
  | adjustShort d => simpa only [App.step, App.adjust_short] using h
  | adjustLong d => simpa only [App.step, App.adjust_long] using h
  | toggleAutoStart => simpa only [App.step, App.toggle_auto_start] using h
  | toggleFocusStart => simpa only [App.step, App.toggle_focus_start] using h
  | resetAllData => simp [App.step, App.reset_all_data]

/-- **C10** In every reachable state the task-selection index is in bounds:
either the task list is empty or `selected_task_index < tasks.length`, so
every guarded indexing of `tasks[selected_task_index]` in the source (task
toggle/delete, counter increment on Work completion or skip, task-name
snapshot at completion) stays in bounds. -/
theorem C10_selected_task_index_in_bounds (tasks0 : List Task) (ops : List Op) :
    ((App.init tasks0).run ops).tasks = [] ∨
      ((App.init tasks0).run ops).selected_task_index
        < ((App.init tasks0).run ops).tasks.length := by
  have h0 : (App.init tasks0).tasks.length = 0 ∨
      (App.init tasks0).selected_task_index < (App.init tasks0).tasks.length := by
    cases tasks0 <;> simp [App.init]
  have hrun := run_preserves
    (fun a => a.tasks.length = 0 ∨ a.selected_task_index < a.tasks.length)
    step_index_bound ops (App.init tasks0) h0
  rcases hrun with h | h
  · exact Or.inl (List.length_eq_zero.mp h)
  · exact Or.inr h

theorem update_paused (a : App) (now : Nat) :
    (a.update_remaining_time now).is_paused = a.is_paused := by
  unfold App.update_remaining_time; split <;> rfl

theorem update_anchor (a : App) (now : Nat) :
    (a.update_remaining_time now).start_instant = a.start_instant := by
  unfold App.update_remaining_time; split <;> rfl

theorem toggle_pause_runs_with_anchor (a : App) (now : Nat) :
    (a.toggle_pause now).is_paused = false →
    (a.toggle_pause now).start_instant.isSome = true := by
  unfold App.toggle_pause
  split_ifs <;> simp

theorem advance_runs_with_anchor (a : App) (now : Nat) :
    (a.advance_pomodoro_state now).is_paused = false →
    (a.advance_pomodoro_state now).start_instant.isSome = true := by
  obtain ⟨mode, state, rem, paused, anchor, srem, cnt, sbl, tasks, idx, im, ib,
    fm, cfg, hist, pend⟩ := a
  cases state <;>
    (simp only [App.advance_pomodoro_state]
     split_ifs <;> simp_all)

theorem otc_runs_with_anchor (a : App) (now : Nat) (date : Int) :
    (a.on_timer_complete now date).is_paused = false →
    (a.on_timer_complete now date).start_instant.isSome = true := by
  obtain ⟨mode, state, rem, paused, anchor, srem, cnt, sbl, tasks, idx, im, ib,
    fm, cfg, hist, pend⟩ := a
  cases mode <;> cases state <;>
    (simp only [App.on_timer_complete]
     split_ifs <;> first | exact advance_runs_with_anchor _ _ | simp)

theorem cp_paused (a : App) (date : Int) (note : Option String) :
    (a.complete_pending_session date note).is_paused = a.is_paused := by
  unfold App.complete_pending_session; split <;> rfl

theorem cp_anchor (a : App) (date : Int) (note : Option String) :
    (a.complete_pending_session date note).start_instant = a.start_instant := by
  unfold App.complete_pending_session; split <;> rfl

theorem step_runs_with_anchor (a : App) (op : Op)
    (h : a.is_paused = false → a.start_instant.isSome = true) :
    (a.step op).is_paused = false → (a.step op).start_instant.isSome = true := by
  cases op with
  | togglePause now => exact toggle_pause_runs_with_anchor a now
  | resetTimer => intro hh; simp [App.step, App.reset_timer] at hh
  | toggleMode => intro hh; simp [App.step, App.toggle_mode] at hh
  | skip now =>
      simp only [App.step, App.skip_to_next]
      split_ifs
      · exact advance_runs_with_anchor a now
      · exact h
  | tick now date =>
      simp only [App.step, App.tick]
      split_ifs with h1 h2
      · exact h
      · exact otc_runs_with_anchor _ now date
      · intro hh
        rw [update_anchor]
        exact h ((update_paused a now) ▸ hh)
  | noteEnter date => intro hh; simp [App.step, App.note_enter] at hh
  | noteSpace now date =>
      simp only [App.step, App.note_space]
      split_ifs
      · exact toggle_pause_runs_with_anchor _ now
      · exact h
      · exact h
  | noteEsc date => intro hh; simp [App.step, App.note_esc] at hh
  | moveUp =>
      simp only [App.step, App.move_up]; split_ifs <;> exact h
  | moveDown =>
      simp only [App.step, App.move_down]; split_ifs <;> exact h
  | addTask name tags =>
      simp only [App.step, App.add_task]; split_ifs <;> exact h
  | deleteTask =>
      simp only [App.step, App.delete_task]; split_ifs <;> exact h
  | clearCompleted => exact h
  | toggleCompleted =>
      simp only [App.step, App.toggle_completed]
      split_ifs
      · exact h
      · split <;> exact h
  | adjustSBL d => exact h
  | adjustWork d => exact h
  | adjustShort d => exact h
  | adjustLong d => exact h
  | toggleAutoStart => exact h
  | toggleFocusStart => exact h
  | resetAllData => intro hh; simp [App.step, App.reset_all_data] at hh

/-- **C5** (amended) In every reachable state, if the timer is running
(`is_paused = false`) then a start anchor is present.  This is the direction
of the claimed equivalence that the code maintains; the converse fails on
reachable states (see the counterexample: a flat-Timer completion — and
likewise the session-note save/skip paths — set `is_paused = true` without
clearing `start_instant`). -/
theorem C5_amended_running_implies_anchor (tasks0 : List Task) (ops : List Op) :
    ((App.init tasks0).run ops).is_paused = false →
    ((App.init tasks0).run ops).start_instant.isSome = true :=
  run_preserves (fun a => a.is_paused = false → a.start_instant.isSome = true)
    step_runs_with_anchor ops (App.init tasks0)
    (fun hh => by simp [App.init] at hh)

theorem C5_amended_witness :
    ((App.init []).run [Op.togglePause 0]).is_paused = false ∧
    ((App.init []).run [Op.togglePause 0]).start_instant.isSome = true :=
  ⟨by decide, C5_amended_running_implies_anchor [] [Op.togglePause 0] (by decide)⟩

theorem update_cnt (a : App) (now : Nat) :
    (a.update_remaining_time now).session_count = a.session_count := by
  unfold App.update_remaining_time; split <;> rfl

theorem update_sbl (a : App) (now : Nat) :
    (a.update_remaining_time now).sessions_before_long = a.sessions_before_long := by
  unfold App.update_remaining_time; split <;> rfl

theorem toggle_pause_cnt (a : App) (now : Nat) :
    (a.toggle_pause now).session_count = a.session_count := by
  unfold App.toggle_pause; split_ifs <;> simp [update_cnt]

theorem toggle_pause_sbl (a : App) (now : Nat) :
    (a.toggle_pause now).sessions_before_long = a.sessions_before_long := by
  unfold App.toggle_pause; split_ifs <;> simp [update_sbl]

theorem cp_cnt (a : App) (date : Int) (note : Option String) :
    (a.complete_pending_session date note).session_count = a.session_count := by
  unfold App.complete_pending_session; split <;> rfl

theorem cp_sbl (a : App) (date : Int) (note : Option String) :
    (a.complete_pending_session date note).sessions_before_long
      = a.sessions_before_long := by
  unfold App.complete_pending_session; split <;> rfl

theorem update_cfg (a : App) (now : Nat) :
    (a.update_remaining_time now).config = a.config := by
  unfold App.update_remaining_time; split <;> rfl

theorem toggle_pause_cfg (a : App) (now : Nat) :
    (a.toggle_pause now).config = a.config := by
  unfold App.toggle_pause; split_ifs <;> simp [update_cfg]

theorem cp_cfg (a : App) (date : Int) (note : Option String) :
    (a.complete_pending_session date note).config = a.config := by
  unfold App.complete_pending_session; split <;> rfl

theorem advance_count_bound (a : App) (now : Nat)
    (h : a.session_count < a.sessions_before_long ∧ a.sessions_before_long ≤ 10 ∧
      a.config.sessions_before_long_break = a.sessions_before_long) :
    (a.advance_pomodoro_state now).session_count
        < (a.advance_pomodoro_state now).sessions_before_long ∧
    (a.advance_pomodoro_state now).sessions_before_long ≤ 10 ∧
    (a.advance_pomodoro_state now).config.sessions_before_long_break
      = (a.advance_pomodoro_state now).sessions_before_long := by
  obtain ⟨mode, state, rem, paused, anchor, srem, cnt, sbl, tasks, idx, im, ib,
    fm, cfg, hist, pend⟩ := a
  cases state <;>
    (simp only [App.advance_pomodoro_state]
     split_ifs <;> refine ⟨?_, ?_, ?_⟩ <;> (try simp_all) <;> omega)

theorem otc_count_bound (a : App) (now : Nat) (date : Int)
    (h : a.session_count < a.sessions_before_long ∧ a.sessions_before_long ≤ 10 ∧
      a.config.sessions_before_long_break = a.sessions_before_long) :
    (a.on_timer_complete now date).session_count
        < (a.on_timer_complete now date).sessions_before_long ∧
    (a.on_timer_complete now date).sessions_before_long ≤ 10 ∧
    (a.on_timer_complete now date).config.sessions_before_long_break
      = (a.on_timer_complete now date).sessions_before_long := by
  obtain ⟨mode, state, rem, paused, anchor, srem, cnt, sbl, tasks, idx, im, ib,
    fm, cfg, hist, pend⟩ := a
  cases mode <;> cases state <;>
    (simp only [App.on_timer_complete]
     split_ifs <;> first | exact advance_count_bound _ now h | exact h)

theorem step_count_bound (a : App) (op : Op)
    (hg : ∀ d, op = Op.adjustSBL d → 0 ≤ d)
    (h : a.session_count < a.sessions_before_long ∧ a.sessions_before_long ≤ 10 ∧
      a.config.sessions_before_long_break = a.sessions_before_long) :
    (a.step op).session_count < (a.step op).sessions_before_long ∧
    (a.step op).sessions_before_long ≤ 10 ∧
    (a.step op).config.sessions_before_long_break
      = (a.step op).sessions_before_long := by
  obtain ⟨h1, h2, h3⟩ := h
  cases op with
  | togglePause now =>
      simp only [App.step, toggle_pause_cnt, toggle_pause_sbl, toggle_pause_cfg]
      exact ⟨h1, h2, h3⟩
  | resetTimer => exact ⟨h1, h2, h3⟩
  | toggleMode =>
      obtain ⟨mode, state, rem, paused, anchor, srem, cnt, sbl, tasks, idx, im,
        ib, fm, cfg, hist, pend⟩ := a
      cases mode <;>
        (refine ⟨?_, ?_, ?_⟩ <;> simp_all [App.step, App.toggle_mode] <;> omega)
  | skip now =>
      simp only [App.step, App.skip_to_next]
      split_ifs
      · exact advance_count_bound a now ⟨h1, h2, h3⟩
      · exact ⟨h1, h2, h3⟩
  | tick now date =>
      simp only [App.step, App.tick]
      split_ifs
      · exact ⟨h1, h2, h3⟩
      · exact otc_count_bound _ now date
          (by rw [update_cnt, update_sbl, update_cfg]; exact ⟨h1, h2, h3⟩)
      · rw [update_cnt, update_sbl, update_cfg]; exact ⟨h1, h2, h3⟩
  | noteEnter date =>
      simp only [App.step, App.note_enter, cp_cnt, cp_sbl, cp_cfg]
      exact ⟨h1, h2, h3⟩
  | noteSpace now date =>
      simp only [App.step, App.note_space]
      split_ifs
      · simp only [toggle_pause_cnt, toggle_pause_sbl, toggle_pause_cfg,
          cp_cnt, cp_sbl, cp_cfg]
        exact ⟨h1, h2, h3⟩
      · exact ⟨h1, h2, h3⟩
      · exact ⟨h1, h2, h3⟩
  | noteEsc date =>
      simp only [App.step, App.note_esc, cp_cnt, cp_sbl, cp_cfg]
      exact ⟨h1, h2, h3⟩
  | moveUp =>
      simp only [App.step, App.move_up]; split_ifs <;> exact ⟨h1, h2, h3⟩
  | moveDown =>
      simp only [App.step, App.move_down]; split_ifs <;> exact ⟨h1, h2, h3⟩
  | addTask name tags =>
      simp only [App.step, App.add_task]; split_ifs <;> exact ⟨h1, h2, h3⟩
  | deleteTask =>
      simp only [App.step, App.delete_task]; split_ifs <;> exact ⟨h1, h2, h3⟩
  | clearCompleted => exact ⟨h1, h2, h3⟩
  | toggleCompleted =>
      simp only [App.step, App.toggle_completed]
      split_ifs
      · exact ⟨h1, h2, h3⟩
      · split <;> exact ⟨h1, h2, h3⟩
  | adjustSBL d =>
      have hd : 0 ≤ d := hg d rfl
      simp only [App.step, App.adjust_sbl, clampI]
      simp only [max_def, min_def]
      split_ifs <;> refine ⟨?_, ?_, ?_⟩ <;> first | trivial | omega
  | adjustWork d => exact ⟨h1, h2, h3⟩
  | adjustShort d => exact ⟨h1, h2, h3⟩
  | adjustLong d => exact ⟨h1, h2, h3⟩
  | toggleAutoStart => exact ⟨h1, h2, h3⟩
  | toggleFocusStart => exact ⟨h1, h2, h3⟩
  | resetAllData =>
      refine ⟨?_, h2, h3⟩
      show (0 : Nat) < a.sessions_before_long
      omega

/-- **C9** (amended) The range invariant `0 ≤ session_count <
sessions_before_long` holds in every state reachable by operation sequences
in which `sessions_before_long` is never adjusted downward (every
`adjustSBL` delta is ≥ 0).  As stated — over all sequences including
downward mid-cycle adjustments — the claim fails: lowering
`sessions_before_long` to at most the live `session_count` produces a
reachable state with `session_count ≥ sessions_before_long` (see the
counterexample); the next Work advance then resets the count to 0. -/
theorem C9_amended_count_in_range (tasks0 : List Task) (ops : List Op)
    (hops : ∀ d, Op.adjustSBL d ∈ ops → 0 ≤ d) :
    ((App.init tasks0).run ops).session_count
      < ((App.init tasks0).run ops).sessions_before_long :=
  (run_preserves_of_forall
    (fun a => a.session_count < a.sessions_before_long ∧
      a.sessions_before_long ≤ 10 ∧
      a.config.sessions_before_long_break = a.sessions_before_long)
    (fun op => ∀ d, op = Op.adjustSBL d → 0 ≤ d)
    step_count_bound ops
    (fun op hop d hd => hops d (hd ▸ hop))
    (App.init tasks0)
    ⟨by norm_num [App.init, Config.default],
     by norm_num [App.init, Config.default], rfl⟩).1

theorem C9_amended_witness :
    ((App.init []).run [Op.skip 0, Op.adjustSBL 1]).session_count
      < ((App.init []).run [Op.skip 0, Op.adjustSBL 1]).sessions_before_long :=
  C9_amended_count_in_range [] [Op.skip 0, Op.adjustSBL 1]
    (fun d hd => by
      simp only [List.mem_cons, List.mem_singleton] at hd
      rcases hd with hd | hd | hd
      · simp at hd
      · injection hd with hd1; omega
      · simp at hd)

theorem tick_of_paused (a : App) (now : Nat) (date : Int)
    (h : a.is_paused = true) : a.tick now date = a := by
  simp [App.tick, h]

theorem update_idem (a : App) (now : Nat) :
    (a.update_remaining_time now).update_remaining_time now
      = a.update_remaining_time now := by
  obtain ⟨mode, state, rem, paused, anchor, srem, cnt, sbl, tasks, idx, im, ib,
    fm, cfg, hist, pend⟩ := a
  cases anchor <;> rfl

theorem advance_rem_eq_srem (a : App) (now : Nat) :
    (a.advance_pomodoro_state now).remaining_time
      = (a.advance_pomodoro_state now).start_remaining := by
  obtain ⟨mode, state, rem, paused, anchor, srem, cnt, sbl, tasks, idx, im, ib,
    fm, cfg, hist, pend⟩ := a
  cases state <;>
    (simp only [App.advance_pomodoro_state]
     split_ifs <;> simp_all)

theorem advance_not_paused_anchor (a : App) (now : Nat) :
    (a.advance_pomodoro_state now).is_paused = false →
    (a.advance_pomodoro_state now).start_instant = some now := by
  obtain ⟨mode, state, rem, paused, anchor, srem, cnt, sbl, tasks, idx, im, ib,
    fm, cfg, hist, pend⟩ := a
  cases state <;>
    (simp only [App.advance_pomodoro_state]
     split_ifs <;> simp_all)

theorem advance_rem_duration (a : App) (now : Nat) :
    (a.advance_pomodoro_state now).remaining_time
      = a.duration_for_state (a.advance_pomodoro_state now).timer_state := by
  obtain ⟨mode, state, rem, paused, anchor, srem, cnt, sbl, tasks, idx, im, ib,
    fm, cfg, hist, pend⟩ := a
  cases state <;>
    (simp only [App.advance_pomodoro_state]
     split_ifs <;> simp_all [App.duration_for_state])

theorem advance_not_paused_state (a : App) (now : Nat) :
    (a.advance_pomodoro_state now).is_paused = false →
    (a.advance_pomodoro_state now).timer_state ≠ TimerState.work := by
  obtain ⟨mode, state, rem, paused, anchor, srem, cnt, sbl, tasks, idx, im, ib,
    fm, cfg, hist, pend⟩ := a
  cases state <;>
    (simp only [App.advance_pomodoro_state]
     split_ifs <;> simp_all)

theorem advance_not_paused_rem_ne (a : App) (now : Nat)
    (hs : 0 < a.config.short_break_mins) (hl : 0 < a.config.long_break_mins) :
    (a.advance_pomodoro_state now).is_paused = false →
    (a.advance_pomodoro_state now).remaining_time ≠ 0 := by
  intro hp
  have hst := advance_not_paused_state a now hp
  rw [advance_rem_duration]
  cases hstate : (a.advance_pomodoro_state now).timer_state with
  | work => exact absurd hstate hst
  | shortBreak => simp only [App.duration_for_state]; omega
  | longBreak => simp only [App.duration_for_state]; omega

theorem tick_fixed_of_anchored (b : App) (now : Nat) (date : Int)
    (hp : b.is_paused = false) (ha : b.start_instant = some now)
    (hr : b.remaining_time = b.start_remaining) (h0 : b.remaining_time ≠ 0) :
    b.tick now date = b := by
  obtain ⟨mode, state, rem, paused, anchor, srem, cnt, sbl, tasks, idx, im, ib,
    fm, cfg, hist, pend⟩ := b
  simp only at hp ha hr h0
  subst hp; subst ha; subst hr
  simp [App.tick, App.update_remaining_time, Nat.sub_self, h0]

theorem advance_tick_fixed (a : App) (now : Nat) (date : Int)
    (hs : 0 < a.config.short_break_mins) (hl : 0 < a.config.long_break_mins) :
    (a.advance_pomodoro_state now).tick now date = a.advance_pomodoro_state now := by
  by_cases hp : (a.advance_pomodoro_state now).is_paused = true
  · exact tick_of_paused _ now date hp
  · rw [Bool.not_eq_true] at hp
    exact tick_fixed_of_anchored _ now date hp
      (advance_not_paused_anchor a now hp)
      (advance_rem_eq_srem a now)
      (advance_not_paused_rem_ne a now hs hl hp)

theorem otc_tick_fixed (a : App) (now : Nat) (date : Int)
    (hs : 0 < a.config.short_break_mins) (hl : 0 < a.config.long_break_mins) :
    (a.on_timer_complete now date).tick now date = a.on_timer_complete now date := by
  obtain ⟨mode, state, rem, paused, anchor, srem, cnt, sbl, tasks, idx, im, ib,
    fm, cfg, hist, pend⟩ := a
  cases mode <;> cases state <;>
    (simp only [App.on_timer_complete]
     split_ifs <;>
       first
         | exact advance_tick_fixed _ now date hs hl
         | exact tick_of_paused _ now date rfl)

theorem tick_idem_of_pos (a : App) (now : Nat) (date : Int)
    (hs : 0 < a.config.short_break_mins) (hl : 0 < a.config.long_break_mins) :
    (a.tick now date).tick now date = a.tick now date := by
  by_cases hp : a.is_paused = true
  · rw [tick_of_paused a now date hp, tick_of_paused a now date hp]
  · rw [Bool.not_eq_true] at hp
    have h1 : a.tick now date =
        (if (a.update_remaining_time now).remaining_time = 0 then
          (a.update_remaining_time now).on_timer_complete now date
        else a.update_remaining_time now) := by
      simp [App.tick, hp]
    by_cases h0 : (a.update_remaining_time now).remaining_time = 0
    · rw [h1, if_pos h0]
      exact otc_tick_fixed _ now date (by rw [update_cfg]; exact hs)
        (by rw [update_cfg]; exact hl)
    · rw [h1, if_neg h0]
      have hp2 : (a.update_remaining_time now).is_paused = false := by
        rw [update_paused]; exact hp
      simp [App.tick, hp2, update_idem, h0]

theorem advance_cfg (a : App) (now : Nat) :
    (a.advance_pomodoro_state now).config = a.config := by
  obtain ⟨mode, state, rem, paused, anchor, srem, cnt, sbl, tasks, idx, im, ib,
    fm, cfg, hist, pend⟩ := a
  cases state <;>
    (simp only [App.advance_pomodoro_state]
     split_ifs <;> simp_all)

theorem otc_cfg (a : App) (now : Nat) (date : Int) :
    (a.on_timer_complete now date).config = a.config := by
  obtain ⟨mode, state, rem, paused, anchor, srem, cnt, sbl, tasks, idx, im, ib,
    fm, cfg, hist, pend⟩ := a
  cases mode <;> cases state <;>
    (simp only [App.on_timer_complete]
     split_ifs <;> simp [advance_cfg])

theorem tick_cfg (a : App) (now : Nat) (date : Int) :
    (a.tick now date).config = a.config := by
  simp only [App.tick]
  split_ifs <;> simp [otc_cfg, update_cfg]

theorem step_breaks_pos (a : App) (op : Op)
    (h : 0 < a.config.short_break_mins ∧ 0 < a.config.long_break_mins) :
    0 < (a.step op).config.short_break_mins ∧
    0 < (a.step op).config.long_break_mins := by
  obtain ⟨h1, h2⟩ := h
  cases op with
  | togglePause now =>
      simp only [App.step, toggle_pause_cfg]; exact ⟨h1, h2⟩
  | resetTimer => exact ⟨h1, h2⟩
  | toggleMode =>
      obtain ⟨mode, state, rem, paused, anchor, srem, cnt, sbl, tasks, idx, im,
        ib, fm, cfg, hist, pend⟩ := a
      cases mode <;> exact ⟨h1, h2⟩
  | skip now =>
      simp only [App.step, App.skip_to_next]
      split_ifs
      · simp only [advance_cfg]; exact ⟨h1, h2⟩
      · exact ⟨h1, h2⟩
  | tick now date =>
      simp only [App.step, tick_cfg]; exact ⟨h1, h2⟩
  | noteEnter date =>
      simp only [App.step, App.note_enter, cp_cfg]; exact ⟨h1, h2⟩
  | noteSpace now date =>
      simp only [App.step, App.note_space]
      split_ifs
      · simp only [toggle_pause_cfg, cp_cfg]; exact ⟨h1, h2⟩
      · exact ⟨h1, h2⟩
      · exact ⟨h1, h2⟩
  | noteEsc date =>
      simp only [App.step, App.note_esc, cp_cfg]; exact ⟨h1, h2⟩
  | moveUp =>
      simp only [App.step, App.move_up]; split_ifs <;> exact ⟨h1, h2⟩
  | moveDown =>
      simp only [App.step, App.move_down]; split_ifs <;> exact ⟨h1, h2⟩
  | addTask name tags =>
      simp only [App.step, App.add_task]; split_ifs <;> exact ⟨h1, h2⟩
  | deleteTask =>
      simp only [App.step, App.delete_task]; split_ifs <;> exact ⟨h1, h2⟩
  | clearCompleted => exact ⟨h1, h2⟩
  | toggleCompleted =>
      simp only [App.step, App.toggle_completed]
      split_ifs
      · exact ⟨h1, h2⟩
      · split <;> exact ⟨h1, h2⟩
  | adjustSBL d => exact ⟨h1, h2⟩
  | adjustWork d => exact ⟨h1, h2⟩
  | adjustShort d =>
      refine ⟨?_, h2⟩
      simp only [App.step, App.adjust_short, clampI]
      simp only [max_def, min_def]
      split_ifs <;> omega
  | adjustLong d =>
      refine ⟨h1, ?_⟩
      simp only [App.step, App.adjust_long, clampI]
      simp only [max_def, min_def]
      split_ifs <;> omega
  | toggleAutoStart => exact ⟨h1, h2⟩
  | toggleFocusStart => exact ⟨h1, h2⟩
  | resetAllData => exact ⟨h1, h2⟩

/-- **C7** Tick is idempotent at a fixed instant: in every state the engine
can reach (the settings clamps keep the configured break durations
positive), calling `tick` twice with the identical `now` (and wall date)
produces the same state as calling it once — no double decrement of the
remaining time and no repeated completion transition. -/
theorem C7_tick_idempotent (tasks0 : List Task) (ops : List Op) (now : Nat)
    (date : Int) :
    ((((App.init tasks0).run ops).tick now date).tick now date)
      = ((App.init tasks0).run ops).tick now date := by
  have hpos := run_preserves
    (fun a => 0 < a.config.short_break_mins ∧ 0 < a.config.long_break_mins)
    step_breaks_pos ops (App.init tasks0)
    ⟨by norm_num [App.init, Config.default], by norm_num [App.init, Config.default]⟩
  exact tick_idem_of_pos _ now date hpos.1 hpos.2

end PomoTui
